import Mathlib

set_option maxHeartbeats 1000000

namespace SlackMorphism

/-! Shallow embedding of the slack client core (src/client/src/lib.rs):
URL building, bearer-token sessions, request construction and dispatch,
and JSON (de)serialization over a concrete payload universe. -/

/-- Characters legal in a URI (RFC 3986 unreserved, gen-delims, sub-delims and
the percent sign). Models the character set accepted by the URL parsers of the
external url and http crates, which the source calls through
`url_str.parse().unwrap()` and `Url::parse_with_params(..).unwrap()`. -/
def isValidUriChar (c : Char) : Bool :=
  c.isAlphanum || c = '-' || c = '.' || c = '_' || c = '~' || c = ':' || c = '/' ||
    c = '?' || c = '#' || c = '[' || c = ']' || c = '@' || c = '!' || c = '$' ||
    c = '&' || c = '\x27' || c = '(' || c = ')' || c = '*' || c = '+' || c = ',' ||
    c = ';' || c = '=' || c = '%'

/-- Decides whether the first list is a prefix of the second. -/
def beginsWith : List Char → List Char → Bool
  | [], _ => true
  | _ :: _, [] => false
  | p :: ps, c :: cs => p = c && beginsWith ps cs

/-- The string starts with an http or https scheme. -/
def hasUrlScheme (cs : List Char) : Bool :=
  beginsWith ("http://".toList) cs || beginsWith ("https://".toList) cs

/-- Model of URL-string well-formedness: an http(s) scheme followed only by
characters legal in a URI. Inputs failing this check make the collaborating
parsers fail, which the source turns into a panic via `unwrap()`. -/
def isValidUrlString (s : String) : Bool :=
  hasUrlScheme s.data && s.data.all isValidUriChar

/-- Model of parsing a string into a URI value and unwrapping the result
(`url_str.parse::<Uri>().unwrap()` and `Url::parse(..).unwrap()`): on a
well-formed absolute URL string the parse succeeds and round-trips to the
same string; on an ill-formed one the `unwrap` panics, modelled as `none`.
The soft errors of the client live in `Except`, so `none` here is
distinguishable from every recoverable error. -/
def parseUriModel (s : String) : Option String :=
  if isValidUrlString s then some s else none

/-- The fixed API base URL (`SlackClient::SLACK_API_URI_STR`). -/
def SLACK_API_URI_STR : String := "https://slack.com/api"

/-- The `format!` concatenation pattern used by `create_method_uri_path`:
base, one slash, method name. -/
def format_base_method (base method_relative_uri : String) : String :=
  base ++ "/" ++ method_relative_uri

/-- `SlackClient::create_method_uri_path`: concatenates the fixed base with the
relative method name, separated by exactly one slash. -/
def create_method_uri_path (method_relative_uri : String) : String :=
  format_base_method SLACK_API_URI_STR method_relative_uri

/-- `SlackClient::create_url`: parse the string as a URI, panicking (`none`)
when it cannot form a valid URL. -/
def create_url (url_str : String) : Option String :=
  parseUriModel url_str

/-- Uppercase hexadecimal digit, as used by percent-encoding in the url crate. -/
def hexUpperDigit (n : Nat) : Char :=
  if n < 10 then Char.ofNat (48 + n) else Char.ofNat (55 + n)

/-- Bytes left unchanged by form-urlencoding in the url crate
(`byte_serialized_unchanged`): ASCII alphanumerics and `*`, `-`, `.`, `_`. -/
def isUrlSafeByte (b : Nat) : Bool :=
  (48 ≤ b && b ≤ 57) || (65 ≤ b && b ≤ 90) || (97 ≤ b && b ≤ 122) ||
    b = 42 || b = 45 || b = 46 || b = 95

/-- Form-urlencoding of one byte (url crate `byte_serialize`): space becomes
`+`, safe bytes stay themselves, every other byte becomes `%XX` with uppercase
hexadecimal digits. -/
def formUrlEncodeByte (b : Nat) : List Char :=
  if b = 32 then ['+']
  else if isUrlSafeByte b then [Char.ofNat b]
  else ['%', hexUpperDigit (b / 16), hexUpperDigit (b % 16)]

/-- The UTF-8 bytes of a string, as natural numbers below 256 (the byte list
underlying `String.toUTF8`). -/
def utf8Bytes (s : String) : List Nat :=
  (s.data.flatMap String.utf8EncodeChar).map (fun b => b.toNat)

/-- Form-urlencoding of a whole string, byte by byte over its UTF-8 encoding. -/
def formUrlEncodeString (s : String) : List Char :=
  (utf8Bytes s).flatMap formUrlEncodeByte

/-- One `key=value` query component, both sides form-urlencoded. -/
def encodeQueryPair (kv : String × String) : List Char :=
  formUrlEncodeString kv.1 ++ '=' :: formUrlEncodeString kv.2

/-- Joins components with a separator character, adding no separator for a
single component and nothing for the empty list. -/
def joinSep (sep : Char) : List (List Char) → List Char
  | [] => []
  | [p] => p
  | p :: q :: ps => p ++ sep :: joinSep sep (q :: ps)

/-- The present pairs of a parameter sequence: `None`-valued pairs dropped,
order kept (the `filter_map` inside `create_url_with_params`). -/
def presentParams (params : List (String × Option String)) : List (String × String) :=
  params.filterMap (fun kv => kv.2.map (fun v => (kv.1, v)))

/-- `SlackClient::create_url_with_params`: parse the base string as a URL
(`Url::parse_with_params`, panicking on failure), drop the absent parameters,
append `?` followed by the form-urlencoded pairs joined with `&` — the url
crate `query_pairs_mut` pushes the `?` before any pair is appended, so the `?`
appears even when no pair is present — and reparse the serialization as a URI
(`as_str().parse().unwrap()`). -/
def create_url_with_params (url_str : String) (params : List (String × Option String)) :
    Option String :=
  let url_query_params := presentParams params
  match parseUriModel url_str with
  | none => none
  | some u =>
      parseUriModel (u ++ String.mk ('?' :: joinSep '&' (url_query_params.map encodeQueryPair)))

/-- Structured JSON payloads: the concrete universe instantiating the generic
`Serialize`/`Deserialize` request and response types of the source. -/
inductive Json where
  | null
  | bool (b : Bool)
  | str (s : String)
  | arr (elements : List Json)
  | obj (fields : List (String × Json))

/-- Lowercase hexadecimal digit, as used by the serde escape table. -/
def hexLowerDigit (n : Nat) : Char :=
  if n < 10 then Char.ofNat (48 + n) else Char.ofNat (87 + n)

/-- JSON string-character escaping as performed by the serde serializer:
quote and backslash escaped, the named control escapes, `\u00XX` for the
remaining control characters, everything else verbatim. -/
def encodeStringChar (c : Char) : List Char :=
  if c = '"' then ['\\', '"']
  else if c = '\\' then ['\\', '\\']
  else if c = '\x08' then ['\\', 'b']
  else if c = '\t' then ['\\', 't']
  else if c = '\n' then ['\\', 'n']
  else if c = '\x0c' then ['\\', 'f']
  else if c = '\r' then ['\\', 'r']
  else if c.toNat < 32 then
    ['\\', 'u', '0', '0', hexLowerDigit (c.toNat / 16), hexLowerDigit (c.toNat % 16)]
  else [c]

mutual

/-- Compact JSON serialization of a payload (serde `to_string`), as characters. -/
def Json.encodeChars : Json → List Char
  | Json.null => ['n', 'u', 'l', 'l']
  | Json.bool true => ['t', 'r', 'u', 'e']
  | Json.bool false => ['f', 'a', 'l', 's', 'e']
  | Json.str s => '"' :: (s.data.flatMap encodeStringChar ++ ['"'])
  | Json.arr es => '[' :: (Json.encodeElems es ++ [']'])
  | Json.obj fs => '\x7b' :: (Json.encodeFields fs ++ ['\x7d'])

/-- Array elements joined by commas. -/
def Json.encodeElems : List Json → List Char
  | [] => []
  | [j] => Json.encodeChars j
  | j :: k :: js => Json.encodeChars j ++ ',' :: Json.encodeElems (k :: js)

/-- Object fields joined by commas. -/
def Json.encodeFields : List (String × Json) → List Char
  | [] => []
  | [kv] => '"' :: (kv.1.data.flatMap encodeStringChar ++ '"' :: ':' :: Json.encodeChars kv.2)
  | kv :: kw :: fs =>
      ('"' :: (kv.1.data.flatMap encodeStringChar ++ '"' :: ':' :: Json.encodeChars kv.2)) ++
        ',' :: Json.encodeFields (kw :: fs)

end

/-- Compact JSON serialization of a payload as a string. -/
def Json.encode (j : Json) : String := String.mk (Json.encodeChars j)

/-- Inverse of a named string escape. -/
def unescapeChar (e : Char) : Option Char :=
  if e = '"' then some '"'
  else if e = '\\' then some '\\'
  else if e = '/' then some '/'
  else if e = 'b' then some '\x08'
  else if e = 't' then some '\t'
  else if e = 'n' then some '\n'
  else if e = 'f' then some '\x0c'
  else if e = 'r' then some '\r'
  else none

/-- Value of a hexadecimal digit character. -/
def hexDigitVal (c : Char) : Option Nat :=
  if 48 ≤ c.toNat && c.toNat ≤ 57 then some (c.toNat - 48)
  else if 97 ≤ c.toNat && c.toNat ≤ 102 then some (c.toNat - 87)
  else if 65 ≤ c.toNat && c.toNat ≤ 70 then some (c.toNat - 55)
  else none

mutual

/-- Parses the body of a JSON string literal up to and including the closing
quote, returning the unescaped characters and the remaining input. -/
def parseStringBody : List Char → Option (List Char × List Char)
  | [] => none
  | c :: rest =>
    if c = '"' then some ([], rest)
    else if c = '\\' then parseEscape rest
    else if 32 ≤ c.toNat then (parseStringBody rest).map (fun p => (c :: p.1, p.2))
    else none

/-- Parses one escape sequence after a backslash, then the rest of the string
body. -/
def parseEscape : List Char → Option (List Char × List Char)
  | 'u' :: '0' :: '0' :: h1 :: h2 :: rest =>
    match hexDigitVal h1, hexDigitVal h2 with
    | some a, some b =>
        (parseStringBody rest).map (fun p => (Char.ofNat (16 * a + b) :: p.1, p.2))
    | _, _ => none
  | e :: rest =>
    match unescapeChar e with
    | some c => (parseStringBody rest).map (fun p => (c :: p.1, p.2))
    | none => none
  | [] => none

end

mutual

/-- Fuel-indexed JSON value parsing (the deserializer of the payload universe,
modelling serde `from_reader` on the same fragment). -/
def parseVal : Nat → List Char → Option (Json × List Char)
  | 0, _ => none
  | Nat.succ fuel, cs =>
    match cs with
    | 'n' :: 'u' :: 'l' :: 'l' :: rest => some (Json.null, rest)
    | 't' :: 'r' :: 'u' :: 'e' :: rest => some (Json.bool true, rest)
    | 'f' :: 'a' :: 'l' :: 's' :: 'e' :: rest => some (Json.bool false, rest)
    | '"' :: rest => (parseStringBody rest).map (fun p => (Json.str (String.mk p.1), p.2))
    | '[' :: rest =>
      if rest.head? = some ']' then some (Json.arr [], rest.tail)
      else (parseElems fuel rest).map (fun p => (Json.arr p.1, p.2))
    | '\x7b' :: rest =>
      if rest.head? = some '\x7d' then some (Json.obj [], rest.tail)
      else (parseObjFields fuel rest).map (fun p => (Json.obj p.1, p.2))
    | _ => none

/-- Parses one or more comma-separated array elements up to and including the
closing bracket. -/
def parseElems : Nat → List Char → Option (List Json × List Char)
  | 0, _ => none
  | Nat.succ fuel, cs =>
    match parseVal fuel cs with
    | none => none
    | some (j, rest) =>
      match rest with
      | ']' :: r => some ([j], r)
      | ',' :: r => (parseElems fuel r).map (fun p => (j :: p.1, p.2))
      | _ => none

/-- Parses one or more comma-separated object fields up to and including the
closing brace. -/
def parseObjFields : Nat → List Char → Option (List (String × Json) × List Char)
  | 0, _ => none
  | Nat.succ fuel, cs =>
    match cs with
    | '"' :: rest =>
      match parseStringBody rest with
      | none => none
      | some (k, rest2) =>
        match rest2 with
        | ':' :: rest3 =>
          match parseVal fuel rest3 with
          | none => none
          | some (v, rest4) =>
            match rest4 with
            | '\x7d' :: r => some ([(String.mk k, v)], r)
            | ',' :: r => (parseObjFields fuel r).map (fun p => ((String.mk k, v) :: p.1, p.2))
            | _ => none
        | _ => none
    | _ => none

end

/-- Full JSON deserialization of a response body: parses one value and requires
the input to be fully consumed, as serde `from_reader` does; `none` is the
decode failure. -/
def Json.parse (s : String) : Option Json :=
  match parseVal (s.data.length + 1) s.data with
  | some (j, []) => some j
  | _ => none


/-- HTTP method verbs used by the request builders. -/
inductive HttpMethod where
  | GET
  | POST
deriving DecidableEq

/-- A request under construction (`hyper::http::request::Builder`): method,
URI and ordered header list are set; the body is not yet attached. -/
structure RequestBuilder where
  method : HttpMethod
  uri : String
  headers : List (String × String)
deriving DecidableEq

/-- A fully-formed outgoing request, as handed to the transport. -/
structure HttpRequest where
  method : HttpMethod
  uri : String
  headers : List (String × String)
  body : String
deriving DecidableEq

/-- `Request::get(uri)`: a fresh builder with the GET verb, the given URI and
no headers. -/
def requestGet (uri : String) : RequestBuilder :=
  RequestBuilder.mk HttpMethod.GET uri []

/-- `Builder::header`: appends one header pair, preserving order. -/
def RequestBuilder.header (rb : RequestBuilder) (k v : String) : RequestBuilder :=
  { rb with headers := rb.headers ++ [(k, v)] }

/-- `Builder::body`: attaches the body and finishes the request
(`Body::empty()` is the empty string). -/
def RequestBuilder.withBody (rb : RequestBuilder) (b : String) : HttpRequest :=
  HttpRequest.mk rb.method rb.uri rb.headers b

/-- A buffered HTTP response: status code and fully-aggregated body. -/
structure HttpResponse where
  status : Nat
  body : String
deriving DecidableEq

/-- Outcome of one transport exchange: a buffered response, or a
connection-level failure (DNS, TCP, TLS, timeout). -/
inductive TransportOutcome where
  | ok (response : HttpResponse)
  | fail

/-- Behavior of the hyper connection pool (`Client<HttpConnector>`), the black
box collaborator that maps a fully-formed request to an outcome. -/
abbrev Transport := HttpRequest → TransportOutcome

/-- `SlackApiToken`: the credential value plus optional workspace and scope
metadata. -/
structure SlackApiToken where
  value : String
  workspace_id : Option String
  scope : Option String
deriving DecidableEq

/-- `SlackClient`: owns the connector. -/
structure SlackClient where
  connector : Transport

/-- `SlackClientSession`: a client reference paired with an owned token clone. -/
structure SlackClientSession where
  client : SlackClient
  token : SlackApiToken

/-- The error kinds a client call can surface as a recoverable result (URL
construction panics are modelled separately as `Option.none`). -/
inductive ClientError where
  | transportError
  | serializeError
  | decodeError
deriving DecidableEq

/-- `ClientResult<T>`: recoverable success or error. -/
abbrev ClientResult (T : Type) := Except ClientError T

/-- `SlackClient::open_session`: pure pairing of the client with a clone of the
token. -/
def SlackClient.open_session (c : SlackClient) (token : SlackApiToken) : SlackClientSession :=
  SlackClientSession.mk c token

/-- `SlackClient::send_webapi_request` (lines 64-74): one transport exchange,
full-body aggregation, then JSON decoding. The response status is taken but
never inspected (the `http_status` line is commented out in the source): the
decode runs on the body alone. -/
def SlackClient.send_webapi_request (c : SlackClient) (request : HttpRequest) :
    ClientResult Json :=
  match c.connector request with
  | TransportOutcome.fail => Except.error ClientError.transportError
  | TransportOutcome.ok http_res =>
    match Json.parse http_res.body with
    | none => Except.error ClientError.decodeError
    | some decoded_body => Except.ok decoded_body

/-- The request built by the unauthenticated `SlackClient::get` (lines 83-99):
URL with query parameters, no headers, empty body; `none` is the URL panic. -/
def SlackClient.get_request (method_relative_uri : String)
    (params : List (String × Option String)) : Option HttpRequest :=
  (create_url_with_params (create_method_uri_path method_relative_uri) params).map
    (fun full_uri => (requestGet full_uri).withBody "")

/-- `SlackClient::get`: builds the unauthenticated request and dispatches it. -/
def SlackClient.get (c : SlackClient) (method_relative_uri : String)
    (params : List (String × Option String)) : Option (ClientResult Json) :=
  (SlackClient.get_request method_relative_uri params).map
    (fun req => c.send_webapi_request req)

/-- `SlackClientSession::setup_token_auth_header` (lines 103-109): appends the
Authorization header carrying the bearer token value. -/
def SlackClientSession.setup_token_auth_header (s : SlackClientSession)
    (request_builder : RequestBuilder) : RequestBuilder :=
  let token_header_value := "Bearer " ++ s.token.value
  request_builder.header "Authorization" token_header_value

/-- The request built by `SlackClientSession::get` (lines 111-131): URL with
query parameters, the bearer auth header, empty body; `none` is the URL panic. -/
def SlackClientSession.get_request (s : SlackClientSession) (method_relative_uri : String)
    (params : List (String × Option String)) : Option HttpRequest :=
  (create_url_with_params (create_method_uri_path method_relative_uri) params).map
    (fun full_uri => (s.setup_token_auth_header (requestGet full_uri)).withBody "")

/-- `SlackClientSession::get`: builds the authenticated request and dispatches
it through the borrowed client. -/
def SlackClientSession.get (s : SlackClientSession) (method_relative_uri : String)
    (params : List (String × Option String)) : Option (ClientResult Json) :=
  (s.get_request method_relative_uri params).map
    (fun req => s.client.send_webapi_request req)

/-- Serialization of the generic request payload (the `RQ: Serialize` bound
plus `serde_json::to_string`): the caller-supplied capability to encode a
payload to JSON text, `none` when the payload cannot be encoded. -/
abbrev JsonStringify (RQ : Type) := RQ → Option String

/-- The serde serializer of the concrete `Json` payload universe: total. -/
def serializeJsonPayload : JsonStringify Json := fun j => some (Json.encode j)

/-- The request built by `SlackClientSession::post` (lines 133-159), up to the
point of dispatch: URL from the method name alone, serialization of the body,
auth then content-type headers. Outer `none` is the URL panic; an inner error
is the SerializeError surfaced before any I/O. The source builds this request
with the GET-verb builder function (`Request::get`), which this embedding
reproduces. -/
def SlackClientSession.post_request {RQ : Type} (toJsonString : JsonStringify RQ)
    (s : SlackClientSession) (method_relative_uri : String) (request : RQ) :
    Option (Except ClientError HttpRequest) :=
  match create_url (create_method_uri_path method_relative_uri) with
  | none => none
  | some full_uri =>
    match toJsonString request with
    | none => some (Except.error ClientError.serializeError)
    | some post_json =>
      some (Except.ok
        (((s.setup_token_auth_header (requestGet full_uri)).header
            "content-type" "application/json").withBody post_json))

/-- `SlackClientSession::post`: builds the request and dispatches it unless
URL construction panicked or serialization already failed. -/
def SlackClientSession.post {RQ : Type} (toJsonString : JsonStringify RQ)
    (s : SlackClientSession) (method_relative_uri : String) (request : RQ) :
    Option (ClientResult Json) :=
  (s.post_request toJsonString method_relative_uri request).map
    (fun r =>
      match r with
      | Except.error e => Except.error e
      | Except.ok req => s.client.send_webapi_request req)

mutual

/-- Fuel sufficient for `parseVal` to parse the encoding of a value. -/
def nfVal : Json → Nat
  | Json.null => 1
  | Json.bool _ => 1
  | Json.str _ => 1
  | Json.arr es => 1 + nfElems es
  | Json.obj fs => 1 + nfFields fs

/-- Fuel sufficient for `parseElems` on encoded elements. -/
def nfElems : List Json → Nat
  | [] => 0
  | j :: js => 1 + nfVal j + nfElems js

/-- Fuel sufficient for `parseObjFields` on encoded fields. -/
def nfFields : List (String × Json) → Nat
  | [] => 0
  | kv :: fs => 1 + nfVal kv.2 + nfFields fs

end

/-- Splits a character list at every occurrence of the separator. -/
def splitSep (sep : Char) : List Char → List (List Char)
  | [] => [[]]
  | c :: rest =>
    if c = sep then [] :: splitSep sep rest
    else
      match splitSep sep rest with
      | [] => [[c]]
      | p :: ps => (c :: p) :: ps

/-- Splits a character list at the first equals sign. -/
def splitEqFirst : List Char → Option (List Char × List Char)
  | [] => none
  | c :: rest =>
    if c = '=' then some ([], rest)
    else (splitEqFirst rest).map (fun p => (c :: p.1, p.2))

mutual

/-- Inverse of form-urlencoding at byte level: plus back to space, percent
escapes back to their byte, any other character to its code point. -/
def percentDecodeBytes : List Char → Option (List Nat)
  | [] => some []
  | c :: rest =>
    if c = '+' then (percentDecodeBytes rest).map (fun bs => 32 :: bs)
    else if c = '%' then percentDecodeEsc rest
    else (percentDecodeBytes rest).map (fun bs => c.toNat :: bs)

/-- Decodes the two hexadecimal digits after a percent sign, then the rest. -/
def percentDecodeEsc : List Char → Option (List Nat)
  | h1 :: h2 :: rest2 =>
    (match hexDigitVal h1, hexDigitVal h2 with
      | some a, some b => (percentDecodeBytes rest2).map (fun bs => (16 * a + b) :: bs)
      | _, _ => none)
  | _ => none

end

/-- Decodes a query string, given as the characters after the question mark,
back into byte-level key and value pairs: the empty query holds no pairs;
otherwise the ampersand-separated components each split at their first equals
sign and both sides percent-decode. -/
def decodeQueryChars (cs : List Char) : Option (List (List Nat × List Nat)) :=
  if cs = [] then some []
  else (splitSep '&' cs).mapM (fun part =>
    match splitEqFirst part with
    | none => none
    | some (a, b) =>
      match percentDecodeBytes a, percentDecodeBytes b with
      | some ka, some vb => some (ka, vb)
      | _, _ => none)

theorem stringMk_data (s : String) : String.mk s.data = s := rfl

theorem beginsWith_append (p u v : List Char) (h : beginsWith p u = true) :
    beginsWith p (u ++ v) = true := by
  induction p generalizing u with
  | nil => simp [beginsWith]
  | cons c cs ih =>
    cases u with
    | nil => simp [beginsWith] at h
    | cons d ds =>
      simp only [List.cons_append, beginsWith, Bool.and_eq_true, decide_eq_true_eq] at h ⊢
      exact ⟨h.1, ih ds h.2⟩

theorem isValidUrlString_append (u : String) (extra : List Char)
    (hu : isValidUrlString u = true) (hx : ∀ c ∈ extra, isValidUriChar c = true) :
    isValidUrlString (u ++ String.mk extra) = true := by
  unfold isValidUrlString at hu ⊢
  simp only [String.data_append, Bool.and_eq_true] at hu ⊢
  obtain ⟨hscheme, hall⟩ := hu
  refine ⟨?_, ?_⟩
  · unfold hasUrlScheme at hscheme ⊢
    simp only [Bool.or_eq_true] at hscheme ⊢
    cases hscheme with
    | inl h => exact Or.inl (beginsWith_append _ _ _ h)
    | inr h => exact Or.inr (beginsWith_append _ _ _ h)
  · simp only [List.all_append, Bool.and_eq_true]
    refine ⟨hall, ?_⟩
    simpa [List.all_eq_true] using hx

theorem presentParams_all_none (params : List (String × Option String))
    (h : ∀ kv ∈ params, kv.2 = none) : presentParams params = [] := by
  induction params with
  | nil => rfl
  | cons kv rest ih =>
    have h1 : kv.2 = none := h kv (by simp)
    have h2 : presentParams rest = [] := ih (fun x hx => h x (by simp [hx]))
    simp [presentParams, List.filterMap_cons, h1] at h2 ⊢
    exact h2

/-- C9: on a base and method name whose slash-concatenation cannot form a valid
URL, URL construction fails fast as a panic (modelled by `Option.none`, a fault
outside the soft `ClientResult` errors); on inputs that do form a valid URL,
`create_url` of the concatenation yields the base and the method name joined by
exactly one slash, and the fixed slack base with method `chat.postMessage`
yields exactly `https://slack.com/api/chat.postMessage`. -/
theorem C9_build_method_url (base method_relative_uri : String) :
    (isValidUrlString (format_base_method base method_relative_uri) = false →
      create_url (format_base_method base method_relative_uri) = none) ∧
    (isValidUrlString (format_base_method base method_relative_uri) = true →
      create_url (format_base_method base method_relative_uri) =
        some (base ++ "/" ++ method_relative_uri)) ∧
    create_url (create_method_uri_path "chat.postMessage") =
      some "https://slack.com/api/chat.postMessage" := by
  refine ⟨fun h => ?_, fun h => ?_, by decide⟩
  · simp [create_url, parseUriModel, h]
  · have hc : create_url (format_base_method base method_relative_uri) =
        some (format_base_method base method_relative_uri) := by
      simp [create_url, parseUriModel, h]
    simpa [format_base_method] using hc

/-- C9 witness: a method name with a space panics; the concrete slack method
URL is the plain concatenation. -/
theorem C9_build_method_url_witness :
    create_url (format_base_method "https://slack.com/api" "chat postMessage") = none ∧
    create_url (format_base_method "https://slack.com/api" "chat.postMessage") =
      some ("https://slack.com/api" ++ "/" ++ "chat.postMessage") :=
  ⟨(C9_build_method_url "https://slack.com/api" "chat postMessage").1 (by decide),
   (C9_build_method_url "https://slack.com/api" "chat.postMessage").2.1 (by decide)⟩

/-- C3 counterexample: with an empty parameter sequence the code produces the
base URL followed by a trailing question mark — the url crate query serializer
pushes the `?` before any pair is appended — so the URL differs from the one
returned by plain `create_url`. -/
theorem C3_counterexample :
    create_url_with_params "https://slack.com/api/api.test" [] =
      some "https://slack.com/api/api.test?" ∧
    create_url "https://slack.com/api/api.test" = some "https://slack.com/api/api.test" ∧
    create_url_with_params "https://slack.com/api/api.test" [] ≠
      create_url "https://slack.com/api/api.test" :=
  ⟨by decide, by decide, by decide⟩

/-- C3 (amended): for every valid base URL string and every parameter sequence
whose values are all absent, `create_url_with_params` produces exactly the URL
produced by `create_url`, with a single trailing question mark and nothing
after it. -/
theorem C3_all_none_params (u : String) (params : List (String × Option String))
    (hnone : ∀ kv ∈ params, kv.2 = none) (hu : isValidUrlString u = true) :
    create_url u = some u ∧
    create_url_with_params u params = (create_url u).map (fun x => x ++ "?") := by
  have hp : presentParams params = [] := presentParams_all_none params hnone
  have hv : isValidUrlString (u ++ "?") = true := by
    have := isValidUrlString_append u ['?'] hu (by decide)
    simpa using this
  refine ⟨by simp [create_url, parseUriModel, hu], ?_⟩
  simp [create_url_with_params, create_url, parseUriModel, hu, hp, joinSep, hv]

/-- C3 witness: the all-absent parameter sequence over the slack test method
produces the `create_url` URL plus a trailing question mark. -/
theorem C3_all_none_params_witness :
    create_url "https://slack.com/api/api.test" = some "https://slack.com/api/api.test" ∧
    create_url_with_params "https://slack.com/api/api.test" [("thread_ts", none)] =
      (create_url "https://slack.com/api/api.test").map (fun x => x ++ "?") :=
  C3_all_none_params "https://slack.com/api/api.test" [("thread_ts", none)]
    (by decide) (by decide)

/-- C1: whenever the session get call builds its outgoing request, that request
carries the header `Authorization: Bearer <value>` with exactly the stored
token value, and the get call dispatches exactly that request through the
transport client. -/
theorem C1_session_get_bearer_header (client : SlackClient) (token : SlackApiToken)
    (method_relative_uri : String) (params : List (String × Option String))
    (req : HttpRequest)
    (h : (client.open_session token).get_request method_relative_uri params = some req) :
    ("Authorization", "Bearer " ++ token.value) ∈ req.headers ∧
    (client.open_session token).get method_relative_uri params =
      some (client.send_webapi_request req) := by
  unfold SlackClientSession.get_request at h
  cases hurl : create_url_with_params (create_method_uri_path method_relative_uri) params with
  | none => rw [hurl] at h; simp at h
  | some u =>
    rw [hurl] at h
    simp at h
    constructor
    · rw [← h]
      simp [SlackClientSession.setup_token_auth_header, RequestBuilder.header,
        requestGet, RequestBuilder.withBody, SlackClient.open_session]
    · unfold SlackClientSession.get SlackClientSession.get_request
      rw [hurl]
      simp [SlackClient.open_session] at h
      simp [SlackClient.open_session, h]

/-- C1 witness: a concrete token and method produce a concrete request carrying
the bearer header and dispatched unchanged. -/
theorem C1_session_get_bearer_header_witness :
    ("Authorization", "Bearer " ++ "xoxb-1234") ∈
      (HttpRequest.mk HttpMethod.GET "https://slack.com/api/api.test?"
        [("Authorization", "Bearer xoxb-1234")] "").headers ∧
    ((SlackClient.mk (fun _ => TransportOutcome.fail)).open_session
        (SlackApiToken.mk "xoxb-1234" none none)).get "api.test" [] =
      some ((SlackClient.mk (fun _ => TransportOutcome.fail)).send_webapi_request
        (HttpRequest.mk HttpMethod.GET "https://slack.com/api/api.test?"
          [("Authorization", "Bearer xoxb-1234")] "")) :=
  C1_session_get_bearer_header (SlackClient.mk (fun _ => TransportOutcome.fail))
    (SlackApiToken.mk "xoxb-1234" none none) "api.test" []
    (HttpRequest.mk HttpMethod.GET "https://slack.com/api/api.test?"
      [("Authorization", "Bearer xoxb-1234")] "") (by decide)

/-- C10: only the token value influences outgoing requests: two credentials
sharing a value but differing arbitrarily in workspace and scope metadata make
the session operations build identical requests and return identical results. -/
theorem C10_only_token_value_used (client : SlackClient) (t1 t2 : SlackApiToken)
    (hv : t1.value = t2.value) (method_relative_uri : String)
    (params : List (String × Option String))
    {RQ : Type} (toJsonString : JsonStringify RQ) (request : RQ) :
    (client.open_session t1).get_request method_relative_uri params =
      (client.open_session t2).get_request method_relative_uri params ∧
    (client.open_session t1).post_request toJsonString method_relative_uri request =
      (client.open_session t2).post_request toJsonString method_relative_uri request ∧
    (client.open_session t1).get method_relative_uri params =
      (client.open_session t2).get method_relative_uri params ∧
    (client.open_session t1).post toJsonString method_relative_uri request =
      (client.open_session t2).post toJsonString method_relative_uri request := by
  refine ⟨?_, ?_, ?_, ?_⟩ <;>
    simp [SlackClientSession.get_request, SlackClientSession.post_request,
      SlackClientSession.get, SlackClientSession.post,
      SlackClientSession.setup_token_auth_header, SlackClient.open_session, hv]

/-- C10 witness: concrete credentials differing only in workspace and scope
metadata produce identical requests and results. -/
theorem C10_only_token_value_used_witness :
    ((SlackClient.mk (fun _ => TransportOutcome.fail)).open_session
        (SlackApiToken.mk "xoxb-1" none none)).get_request "api.test" [] =
      ((SlackClient.mk (fun _ => TransportOutcome.fail)).open_session
        (SlackApiToken.mk "xoxb-1" (some "W1") (some "chat:write"))).get_request
          "api.test" [] ∧
    ((SlackClient.mk (fun _ => TransportOutcome.fail)).open_session
        (SlackApiToken.mk "xoxb-1" none none)).post_request serializeJsonPayload
          "api.test" Json.null =
      ((SlackClient.mk (fun _ => TransportOutcome.fail)).open_session
        (SlackApiToken.mk "xoxb-1" (some "W1") (some "chat:write"))).post_request
          serializeJsonPayload "api.test" Json.null ∧
    ((SlackClient.mk (fun _ => TransportOutcome.fail)).open_session
        (SlackApiToken.mk "xoxb-1" none none)).get "api.test" [] =
      ((SlackClient.mk (fun _ => TransportOutcome.fail)).open_session
        (SlackApiToken.mk "xoxb-1" (some "W1") (some "chat:write"))).get "api.test" [] ∧
    ((SlackClient.mk (fun _ => TransportOutcome.fail)).open_session
        (SlackApiToken.mk "xoxb-1" none none)).post serializeJsonPayload
          "api.test" Json.null =
      ((SlackClient.mk (fun _ => TransportOutcome.fail)).open_session
        (SlackApiToken.mk "xoxb-1" (some "W1") (some "chat:write"))).post
          serializeJsonPayload "api.test" Json.null :=
  C10_only_token_value_used (SlackClient.mk (fun _ => TransportOutcome.fail))
    (SlackApiToken.mk "xoxb-1" none none)
    (SlackApiToken.mk "xoxb-1" (some "W1") (some "chat:write"))
    rfl "api.test" [] serializeJsonPayload Json.null

/-- C7: when the payload cannot be encoded to JSON, the post call surfaces a
SerializeError, and it does so for every possible transport behavior — the
result never depends on the transport, so no network exchange is attempted. -/
theorem C7_serialize_error_before_io {RQ : Type} (toJsonString : JsonStringify RQ)
    (request : RQ) (hser : toJsonString request = none) (token : SlackApiToken)
    (method_relative_uri : String)
    (hurl : isValidUrlString (create_method_uri_path method_relative_uri) = true)
    (t : Transport) :
    ((SlackClient.mk t).open_session token).post toJsonString method_relative_uri request =
      some (Except.error ClientError.serializeError) := by
  simp [SlackClientSession.post, SlackClientSession.post_request, SlackClient.open_session,
    create_url, parseUriModel, hurl, hser]

/-- C7 witness: a payload whose serializer fails yields SerializeError even
under a transport that would answer every request successfully. -/
theorem C7_serialize_error_before_io_witness :
    ((SlackClient.mk (fun _ => TransportOutcome.ok (HttpResponse.mk 200 "null"))).open_session
        (SlackApiToken.mk "xoxb-1" none none)).post (fun _ : Unit => none) "api.test" () =
      some (Except.error ClientError.serializeError) :=
  C7_serialize_error_before_io (fun _ : Unit => none) () rfl
    (SlackApiToken.mk "xoxb-1" none none) "api.test" (by decide)
    (fun _ => TransportOutcome.ok (HttpResponse.mk 200 "null"))

/-- C5: the transport client send never inspects the response status: two
responses with equal bodies but arbitrary, possibly different statuses give
equal results, and a body that decodes to a JSON value is returned as success
whatever the status. -/
theorem C5_status_never_inspected (t1 t2 : Transport) (req : HttpRequest)
    (r1 r2 : HttpResponse)
    (h1 : t1 req = TransportOutcome.ok r1) (h2 : t2 req = TransportOutcome.ok r2)
    (hbody : r1.body = r2.body) :
    (SlackClient.mk t1).send_webapi_request req =
      (SlackClient.mk t2).send_webapi_request req ∧
    (∀ j, Json.parse r1.body = some j →
      (SlackClient.mk t1).send_webapi_request req = Except.ok j) := by
  constructor
  · simp [SlackClient.send_webapi_request, h1, h2, hbody]
  · intro j hj
    simp [SlackClient.send_webapi_request, h1, hj]

/-- C5 witness: a 500 response whose body is valid JSON decodes to the same
success value as a 200 response with the same body. -/
theorem C5_status_never_inspected_witness :
    (SlackClient.mk (fun _ => TransportOutcome.ok (HttpResponse.mk 500 "null"))).send_webapi_request
        (HttpRequest.mk HttpMethod.GET "https://slack.com/api/api.test" [] "") =
      (SlackClient.mk (fun _ => TransportOutcome.ok (HttpResponse.mk 200 "null"))).send_webapi_request
        (HttpRequest.mk HttpMethod.GET "https://slack.com/api/api.test" [] "") ∧
    (∀ j, Json.parse (HttpResponse.mk 500 "null").body = some j →
      (SlackClient.mk (fun _ => TransportOutcome.ok (HttpResponse.mk 500 "null"))).send_webapi_request
        (HttpRequest.mk HttpMethod.GET "https://slack.com/api/api.test" [] "") = Except.ok j) :=
  C5_status_never_inspected
    (fun _ => TransportOutcome.ok (HttpResponse.mk 500 "null"))
    (fun _ => TransportOutcome.ok (HttpResponse.mk 200 "null"))
    (HttpRequest.mk HttpMethod.GET "https://slack.com/api/api.test" [] "")
    (HttpResponse.mk 500 "null") (HttpResponse.mk 200 "null") rfl rfl rfl

/-- C6: when the transport delivers a response whose body does not decode as
JSON, both the session get call and the session post call return a DecodeError
and no decoded value. -/
theorem C6_decode_error_propagates (s : SlackClientSession) (method_relative_uri : String)
    (params : List (String × Option String))
    {RQ : Type} (toJsonString : JsonStringify RQ) (request : RQ)
    (resp : HttpResponse) (hbad : Json.parse resp.body = none)
    (htr : ∀ r : HttpRequest, s.client.connector r = TransportOutcome.ok resp)
    (reqG : HttpRequest) (hG : s.get_request method_relative_uri params = some reqG)
    (reqP : HttpRequest)
    (hP : s.post_request toJsonString method_relative_uri request = some (Except.ok reqP)) :
    s.get method_relative_uri params = some (Except.error ClientError.decodeError) ∧
    s.post toJsonString method_relative_uri request =
      some (Except.error ClientError.decodeError) := by
  constructor
  · simp [SlackClientSession.get, hG, SlackClient.send_webapi_request, htr, hbad]
  · simp [SlackClientSession.post, hP, SlackClient.send_webapi_request, htr, hbad]

/-- C6 witness: a transport answering with a non-JSON body makes concrete get
and post calls return DecodeError. -/
theorem C6_decode_error_propagates_witness :
    ((SlackClient.mk (fun _ => TransportOutcome.ok (HttpResponse.mk 200 "not json"))).open_session
        (SlackApiToken.mk "xoxb-1" none none)).get "api.test" [] =
      some (Except.error ClientError.decodeError) ∧
    ((SlackClient.mk (fun _ => TransportOutcome.ok (HttpResponse.mk 200 "not json"))).open_session
        (SlackApiToken.mk "xoxb-1" none none)).post serializeJsonPayload "api.test" Json.null =
      some (Except.error ClientError.decodeError) :=
  C6_decode_error_propagates
    ((SlackClient.mk (fun _ => TransportOutcome.ok (HttpResponse.mk 200 "not json"))).open_session
      (SlackApiToken.mk "xoxb-1" none none)) "api.test" [] serializeJsonPayload Json.null
    (HttpResponse.mk 200 "not json") (by rfl) (fun _ => rfl)
    (HttpRequest.mk HttpMethod.GET "https://slack.com/api/api.test?"
      [("Authorization", "Bearer xoxb-1")] "") (by rfl)
    (HttpRequest.mk HttpMethod.GET "https://slack.com/api/api.test"
      [("Authorization", "Bearer xoxb-1"), ("content-type", "application/json")] "null")
    (by rfl)

/-- C8: the unauthenticated client get behaves exactly as the session get
without the Authorization header: they both build the same URL with a GET verb
and empty body and they panic together; the session request carries exactly the
auth header on top of the client request; and over any transport that does not
discriminate on headers they return the same decoded result. -/
theorem C8_client_get_mirrors_session_get (c : SlackClient) (token : SlackApiToken)
    (method_relative_uri : String) (params : List (String × Option String)) :
    (∀ req, SlackClient.get_request method_relative_uri params = some req →
      ∃ reqS, (c.open_session token).get_request method_relative_uri params = some reqS ∧
        reqS.method = req.method ∧ reqS.uri = req.uri ∧ reqS.body = req.body ∧
        req.method = HttpMethod.GET ∧ req.body = "" ∧ req.headers = [] ∧
        reqS.headers = [("Authorization", "Bearer " ++ token.value)]) ∧
    (SlackClient.get_request method_relative_uri params = none ↔
      (c.open_session token).get_request method_relative_uri params = none) ∧
    (∀ t : Transport,
      (∀ r1 r2 : HttpRequest, r1.method = r2.method → r1.uri = r2.uri →
        r1.body = r2.body → t r1 = t r2) →
      SlackClient.get (SlackClient.mk t) method_relative_uri params =
        ((SlackClient.mk t).open_session token).get method_relative_uri params) := by
  cases hurl : create_url_with_params (create_method_uri_path method_relative_uri) params with
  | none =>
    refine ⟨?_, ?_, ?_⟩
    · intro req h
      unfold SlackClient.get_request at h
      rw [hurl] at h
      simp at h
    · unfold SlackClient.get_request SlackClientSession.get_request
      rw [hurl]
      simp
    · intro t _
      unfold SlackClient.get SlackClientSession.get SlackClient.get_request
        SlackClientSession.get_request
      rw [hurl]
      simp
  | some u =>
    refine ⟨?_, ?_, ?_⟩
    · intro req h
      unfold SlackClient.get_request at h
      rw [hurl] at h
      simp at h
      refine ⟨((c.open_session token).setup_token_auth_header (requestGet u)).withBody "",
        ?_, ?_⟩
      · unfold SlackClientSession.get_request
        rw [hurl]
        rfl
      · rw [← h]
        simp [requestGet, RequestBuilder.withBody, SlackClientSession.setup_token_auth_header,
          RequestBuilder.header, SlackClient.open_session]
    · unfold SlackClient.get_request SlackClientSession.get_request
      rw [hurl]
      simp
    · intro t hblind
      unfold SlackClient.get SlackClientSession.get SlackClient.get_request
        SlackClientSession.get_request
      rw [hurl]
      have hsame := hblind ((requestGet u).withBody "")
        ((((SlackClient.mk t).open_session token).setup_token_auth_header
          (requestGet u)).withBody "") rfl rfl rfl
      simp [SlackClient.open_session, SlackClient.send_webapi_request] at hsame ⊢
      rw [hsame]

/-- C8 witness: over a concrete header-blind transport the unauthenticated get
and a concrete session get agree. -/
theorem C8_client_get_mirrors_session_get_witness :
    SlackClient.get
        (SlackClient.mk (fun _ => TransportOutcome.ok (HttpResponse.mk 200 "null")))
        "api.test" [] =
      ((SlackClient.mk (fun _ => TransportOutcome.ok (HttpResponse.mk 200 "null"))).open_session
        (SlackApiToken.mk "xoxb-1" none none)).get "api.test" [] :=
  (C8_client_get_mirrors_session_get
      (SlackClient.mk (fun _ => TransportOutcome.ok (HttpResponse.mk 200 "null")))
      (SlackApiToken.mk "xoxb-1" none none) "api.test" []).2.2
    (fun _ => TransportOutcome.ok (HttpResponse.mk 200 "null"))
    (fun _ _ _ _ _ => rfl)


theorem nfVal_pos (j : Json) : 1 ≤ nfVal j := by
  cases j <;> simp [nfVal]

theorem hexDigitVal_hexLowerDigit : ∀ n : Fin 16, hexDigitVal (hexLowerDigit n.val) = some n.val := by
  decide

theorem parseStringBody_encode (cs rest : List Char) :
    parseStringBody (cs.flatMap encodeStringChar ++ '"' :: rest) = some (cs, rest) := by
  induction cs with
  | nil => simp [parseStringBody]
  | cons c cs ih =>
    simp only [List.flatMap_cons, List.append_assoc]
    by_cases h1 : c = '"'
    · subst h1
      simp [encodeStringChar, parseStringBody, parseEscape, unescapeChar, ih]
    by_cases h2 : c = '\\'
    · subst h2
      simp [encodeStringChar, parseStringBody, parseEscape, unescapeChar, ih]
    by_cases h3 : c = '\x08'
    · subst h3
      simp [encodeStringChar, parseStringBody, parseEscape, unescapeChar, ih]
    by_cases h4 : c = '\t'
    · subst h4
      simp [encodeStringChar, parseStringBody, parseEscape, unescapeChar, ih]
    by_cases h5 : c = '\n'
    · subst h5
      simp [encodeStringChar, parseStringBody, parseEscape, unescapeChar, ih]
    by_cases h6 : c = '\x0c'
    · subst h6
      simp [encodeStringChar, parseStringBody, parseEscape, unescapeChar, ih]
    by_cases h7 : c = '\r'
    · subst h7
      simp [encodeStringChar, parseStringBody, parseEscape, unescapeChar, ih]
    by_cases h8 : c.toNat < 32
    · have hq : c.toNat / 16 < 16 := by omega
      have hr : c.toNat % 16 < 16 := Nat.mod_lt _ (by omega)
      have hd1 := hexDigitVal_hexLowerDigit ⟨c.toNat / 16, hq⟩
      have hd2 := hexDigitVal_hexLowerDigit ⟨c.toNat % 16, hr⟩
      simp only [Fin.val_mk] at hd1 hd2
      simp [encodeStringChar, h1, h2, h3, h4, h5, h6, h7, h8, parseStringBody,
        parseEscape, hd1, hd2, Nat.div_add_mod, ih]
    · have hge : 32 ≤ c.toNat := Nat.le_of_not_lt h8
      simp [encodeStringChar, h1, h2, h3, h4, h5, h6, h7, h8, parseStringBody, hge, ih]

theorem encodeElems_cons (x : Json) (xs : List Json) :
    Json.encodeElems (x :: xs) =
      Json.encodeChars x ++
        (match xs with
          | [] => []
          | y :: ys => ',' :: Json.encodeElems (y :: ys)) := by
  cases xs <;> simp [Json.encodeElems]

theorem encodeFields_cons (kv : String × Json) (fs : List (String × Json)) :
    Json.encodeFields (kv :: fs) =
      ('"' :: (kv.1.data.flatMap encodeStringChar ++ '"' :: ':' :: Json.encodeChars kv.2)) ++
        (match fs with
          | [] => []
          | kw :: gs => ',' :: Json.encodeFields (kw :: gs)) := by
  cases fs <;> simp [Json.encodeFields]

theorem encodeChars_head (j : Json) :
    ∃ c cs, Json.encodeChars j = c :: cs ∧ c ≠ ']' ∧ c ≠ '\x7d' := by
  cases j with
  | null => exact ⟨'n', _, rfl, by decide, by decide⟩
  | bool b => cases b with
    | false => exact ⟨'f', _, rfl, by decide, by decide⟩
    | true => exact ⟨'t', _, rfl, by decide, by decide⟩
  | str s => exact ⟨'"', _, rfl, by decide, by decide⟩
  | arr es => exact ⟨'[', _, rfl, by decide, by decide⟩
  | obj fs => exact ⟨'\x7b', _, rfl, by decide, by decide⟩

theorem parse_encode_aux (fuel : Nat) :
    (∀ j rest, nfVal j ≤ fuel → parseVal fuel (Json.encodeChars j ++ rest) = some (j, rest)) ∧
    (∀ x xs rest, nfElems (x :: xs) ≤ fuel →
      parseElems fuel (Json.encodeElems (x :: xs) ++ ']' :: rest) = some (x :: xs, rest)) ∧
    (∀ k v fs rest, nfFields ((k, v) :: fs) ≤ fuel →
      parseObjFields fuel (Json.encodeFields ((k, v) :: fs) ++ '\x7d' :: rest) =
        some ((k, v) :: fs, rest)) := by
  induction fuel with
  | zero =>
    refine ⟨?_, ?_, ?_⟩
    · intro j rest h
      have := nfVal_pos j
      omega
    · intro x xs rest h
      simp [nfElems] at h
    · intro k v fs rest h
      simp [nfFields] at h
  | succ f ih =>
    obtain ⟨ihV, ihE, ihF⟩ := ih
    refine ⟨?_, ?_, ?_⟩
    · intro j rest hf
      cases j with
      | null => simp [Json.encodeChars, parseVal]
      | bool b => cases b <;> simp [Json.encodeChars, parseVal]
      | str s =>
        simp [Json.encodeChars, parseVal, List.append_assoc, parseStringBody_encode,
          stringMk_data]
      | arr es =>
        cases es with
        | nil => simp [Json.encodeChars, Json.encodeElems, parseVal]
        | cons x xs =>
          obtain ⟨c, cs0, hx, hc1, _⟩ := encodeChars_head x
          have hne : nfElems (x :: xs) ≤ f := by simp [nfVal] at hf; omega
          have hrec := ihE x xs rest hne
          have hhead : (Json.encodeElems (x :: xs) ++ ']' :: rest).head? = some c := by
            rw [encodeElems_cons x xs, hx]
            cases xs <;> simp
          simp [Json.encodeChars, parseVal, hhead, hc1, hrec]
      | obj fs =>
        cases fs with
        | nil => simp [Json.encodeChars, Json.encodeFields, parseVal]
        | cons kv gs =>
          obtain ⟨k, v⟩ := kv
          have hne : nfFields ((k, v) :: gs) ≤ f := by simp [nfVal] at hf; omega
          have hrec := ihF k v gs rest hne
          have hhead : (Json.encodeFields ((k, v) :: gs) ++ '\x7d' :: rest).head? = some '"' := by
            rw [encodeFields_cons (k, v) gs]
            cases gs <;> simp
          simp [Json.encodeChars, parseVal, hhead, hrec]
    · intro x xs rest hf
      have hx : nfVal x ≤ f := by simp [nfElems] at hf; omega
      cases xs with
      | nil =>
        have h0 := ihV x (']' :: rest) hx
        simp [Json.encodeElems, parseElems, h0]
      | cons y ys =>
        have hy : nfElems (y :: ys) ≤ f := by
          simp [nfElems] at hf ⊢
          omega
        have h0 := ihV x (',' :: (Json.encodeElems (y :: ys) ++ ']' :: rest)) hx
        have h1 := ihE y ys rest hy
        rw [encodeElems_cons x (y :: ys)]
        simp only [List.append_assoc, List.cons_append]
        simp [parseElems, h0, h1]
    · intro k v fs rest hf
      have hv : nfVal v ≤ f := by simp [nfFields] at hf; omega
      cases fs with
      | nil =>
        have h0 := ihV v ('\x7d' :: rest) hv
        have hk := parseStringBody_encode k.data (':' :: (Json.encodeChars v ++ '\x7d' :: rest))
        rw [encodeFields_cons (k, v) []]
        simp only [List.append_assoc, List.cons_append, List.nil_append, List.append_nil]
        simp [parseObjFields, hk, h0, stringMk_data]
      | cons kw gs =>
        obtain ⟨k2, v2⟩ := kw
        have hw : nfFields ((k2, v2) :: gs) ≤ f := by
          simp [nfFields] at hf ⊢
          omega
        have h0 := ihV v
          (',' :: (Json.encodeFields ((k2, v2) :: gs) ++ '\x7d' :: rest)) hv
        have h1 := ihF k2 v2 gs rest hw
        have hk := parseStringBody_encode k.data
          (':' :: (Json.encodeChars v ++
            ',' :: (Json.encodeFields ((k2, v2) :: gs) ++ '\x7d' :: rest)))
        rw [encodeFields_cons (k, v) ((k2, v2) :: gs)]
        simp only [List.append_assoc, List.cons_append]
        simp [parseObjFields, hk, h0, h1, stringMk_data]

theorem parseVal_encode (j : Json) (rest : List Char) (fuel : Nat) (hf : nfVal j ≤ fuel) :
    parseVal fuel (Json.encodeChars j ++ rest) = some (j, rest) :=
  (parse_encode_aux fuel).1 j rest hf

theorem nf_le_aux (n : Nat) :
    (∀ j : Json, sizeOf j ≤ n → nfVal j ≤ (Json.encodeChars j).length) ∧
    (∀ es : List Json, sizeOf es ≤ n → nfElems es ≤ (Json.encodeElems es).length + 1) ∧
    (∀ fs : List (String × Json), sizeOf fs ≤ n →
      nfFields fs ≤ (Json.encodeFields fs).length + 1) := by
  induction n with
  | zero =>
    refine ⟨?_, ?_, ?_⟩
    · intro j h
      cases j <;> simp at h
    · intro es h
      cases es <;> simp at h
    · intro fs h
      cases fs <;> simp at h
  | succ n ih =>
    obtain ⟨ihV, ihE, ihF⟩ := ih
    refine ⟨?_, ?_, ?_⟩
    · intro j hs
      cases j with
      | null => simp [nfVal, Json.encodeChars]
      | bool b => cases b <;> simp [nfVal, Json.encodeChars]
      | str s => simp [nfVal, Json.encodeChars]
      | arr es =>
        have hes : sizeOf es ≤ n := by simp at hs; omega
        have := ihE es hes
        simp [nfVal, Json.encodeChars]
        omega
      | obj fs =>
        have hfs : sizeOf fs ≤ n := by simp at hs; omega
        have := ihF fs hfs
        simp [nfVal, Json.encodeChars]
        omega
    · intro es hs
      cases es with
      | nil => simp [nfElems, Json.encodeElems]
      | cons x xs =>
        have hx : sizeOf x ≤ n := by simp at hs; omega
        have h1 := ihV x hx
        cases xs with
        | nil => simp [nfElems, Json.encodeElems]; omega
        | cons y ys =>
          have hys : sizeOf (y :: ys) ≤ n := by simp at hs ⊢; omega
          have h2 := ihE (y :: ys) hys
          simp [nfElems, encodeElems_cons x (y :: ys)] at h2 ⊢
          omega
    · intro fs hs
      cases fs with
      | nil => simp [nfFields, Json.encodeFields]
      | cons kv gs =>
        have hv : sizeOf kv.2 ≤ n := by
          obtain ⟨k, v⟩ := kv
          simp at hs ⊢
          omega
        have h1 := ihV kv.2 hv
        cases gs with
        | nil => simp [nfFields, Json.encodeFields]; omega
        | cons kw hs2 =>
          have hgs : sizeOf (kw :: hs2) ≤ n := by simp at hs ⊢; omega
          have h2 := ihF (kw :: hs2) hgs
          simp [nfFields, encodeFields_cons kv (kw :: hs2)] at h2 ⊢
          omega

theorem nfVal_le_encode (j : Json) : nfVal j ≤ (Json.encodeChars j).length :=
  (nf_le_aux (sizeOf j)).1 j (Nat.le_refl _)

/-- Round trip of the JSON payload universe: parsing the serde encoding of any
payload yields back a structurally equal payload. -/
theorem Json.parse_encode (j : Json) : Json.parse (Json.encode j) = some j := by
  have h := parseVal_encode j [] ((Json.encodeChars j).length + 1)
    (by have := nfVal_le_encode j; omega)
  simp only [List.append_nil] at h
  simp [Json.parse, Json.encode, h]

/-- C4: the session post call builds its URL from the method name alone (no
query parameters), serializes the payload to a JSON string that becomes the
request body, sets the bearer auth header and `content-type: application/json`,
dispatches exactly that request, and the body decodes back to a payload
structurally equal to the original. -/
theorem C4_post_request_shape (client : SlackClient) (token : SlackApiToken)
    (method_relative_uri : String) (request : Json)
    (hurl : isValidUrlString (create_method_uri_path method_relative_uri) = true) :
    ∃ req : HttpRequest,
      (client.open_session token).post_request serializeJsonPayload
        method_relative_uri request = some (Except.ok req) ∧
      req.uri = create_method_uri_path method_relative_uri ∧
      req.headers = [("Authorization", "Bearer " ++ token.value),
        ("content-type", "application/json")] ∧
      req.body = Json.encode request ∧
      Json.parse req.body = some request ∧
      (client.open_session token).post serializeJsonPayload method_relative_uri request =
        some (client.send_webapi_request req) := by
  refine ⟨(((client.open_session token).setup_token_auth_header
      (requestGet (create_method_uri_path method_relative_uri))).header
        "content-type" "application/json").withBody (Json.encode request),
    ?_, rfl, ?_, rfl, ?_, ?_⟩
  · simp [SlackClientSession.post_request, create_url, parseUriModel, hurl,
      serializeJsonPayload]
  · simp [SlackClientSession.setup_token_auth_header, RequestBuilder.header, requestGet,
      RequestBuilder.withBody, SlackClient.open_session]
  · simpa using Json.parse_encode request
  · simp [SlackClientSession.post, SlackClientSession.post_request, create_url,
      parseUriModel, hurl, serializeJsonPayload, SlackClient.open_session]

/-- C4 witness: a concrete object payload posts as its JSON encoding and
decodes back to itself. -/
theorem C4_post_request_shape_witness :
    ∃ req : HttpRequest,
      ((SlackClient.mk (fun _ => TransportOutcome.fail)).open_session
          (SlackApiToken.mk "xoxb-1" none none)).post_request serializeJsonPayload
        "chat.postMessage" (Json.obj [("channel", Json.str "C123")]) =
          some (Except.ok req) ∧
      req.uri = create_method_uri_path "chat.postMessage" ∧
      req.headers = [("Authorization", "Bearer " ++ "xoxb-1"),
        ("content-type", "application/json")] ∧
      req.body = Json.encode (Json.obj [("channel", Json.str "C123")]) ∧
      Json.parse req.body = some (Json.obj [("channel", Json.str "C123")]) ∧
      ((SlackClient.mk (fun _ => TransportOutcome.fail)).open_session
          (SlackApiToken.mk "xoxb-1" none none)).post serializeJsonPayload
        "chat.postMessage" (Json.obj [("channel", Json.str "C123")]) =
          some ((SlackClient.mk (fun _ => TransportOutcome.fail)).send_webapi_request req) :=
  C4_post_request_shape (SlackClient.mk (fun _ => TransportOutcome.fail))
    (SlackApiToken.mk "xoxb-1" none none) "chat.postMessage"
    (Json.obj [("channel", Json.str "C123")]) (by decide)

theorem utf8Bytes_lt_256 (s : String) : ∀ b ∈ utf8Bytes s, b < 256 := by
  intro b hb
  simp [utf8Bytes] at hb
  obtain ⟨x, _, rfl⟩ := hb
  exact x.toNat_lt

theorem hexDigitVal_hexUpperDigit : ∀ n : Fin 16,
    hexDigitVal (hexUpperDigit n.val) = some n.val := by
  decide

set_option maxRecDepth 4000 in
theorem safeByte_char_facts : ∀ b : Fin 256, isUrlSafeByte b.val = true →
    Char.ofNat b.val ≠ '+' ∧ Char.ofNat b.val ≠ '%' ∧ (Char.ofNat b.val).toNat = b.val := by
  decide

set_option maxRecDepth 4000 in
theorem formUrlEncodeByte_facts : ∀ b : Fin 256,
    '&' ∉ formUrlEncodeByte b.val ∧ '=' ∉ formUrlEncodeByte b.val ∧
    (∀ c ∈ formUrlEncodeByte b.val, isValidUriChar c = true) := by
  decide

theorem percentDecode_encodeByte (b : Nat) (hb : b < 256) (rest : List Char) (bs : List Nat)
    (ih : percentDecodeBytes rest = some bs) :
    percentDecodeBytes (formUrlEncodeByte b ++ rest) = some (b :: bs) := by
  by_cases h32 : b = 32
  · subst h32
    simp only [formUrlEncodeByte, if_pos rfl, List.cons_append, List.nil_append]
    rw [percentDecodeBytes.eq_def]
    simp [ih]
  by_cases hsafe : isUrlSafeByte b = true
  · obtain ⟨hp, hpc, ht⟩ := safeByte_char_facts ⟨b, hb⟩ hsafe
    simp only [Fin.val_mk] at hp hpc ht
    simp only [formUrlEncodeByte, h32, hsafe, if_false, if_true, List.cons_append,
      List.nil_append, ite_false, ite_true]
    rw [percentDecodeBytes.eq_def]
    simp [ih, hp, hpc, ht]
  · have hq : b / 16 < 16 := by omega
    have hr : b % 16 < 16 := Nat.mod_lt _ (by omega)
    have hd1 := hexDigitVal_hexUpperDigit ⟨b / 16, hq⟩
    have hd2 := hexDigitVal_hexUpperDigit ⟨b % 16, hr⟩
    simp only [Fin.val_mk] at hd1 hd2
    simp only [formUrlEncodeByte, h32, hsafe, List.cons_append, List.nil_append,
      ite_false, ite_true]
    rw [percentDecodeBytes.eq_def]
    simp [percentDecodeEsc, hd1, hd2, ih, Nat.div_add_mod]

theorem percentDecode_encodeBytes (bs : List Nat) (hlt : ∀ b ∈ bs, b < 256) :
    percentDecodeBytes (bs.flatMap formUrlEncodeByte) = some bs := by
  induction bs with
  | nil => simp [percentDecodeBytes]
  | cons b rest ih =>
    have h1 : b < 256 := hlt b (by simp)
    have h2 := ih (fun x hx => hlt x (by simp [hx]))
    simp only [List.flatMap_cons]
    exact percentDecode_encodeByte b h1 _ _ h2

theorem percentDecode_encodeString (s : String) :
    percentDecodeBytes (formUrlEncodeString s) = some (utf8Bytes s) :=
  percentDecode_encodeBytes (utf8Bytes s) (utf8Bytes_lt_256 s)

theorem formUrlEncodeString_no_amp (s : String) : '&' ∉ formUrlEncodeString s := by
  intro hc
  simp [formUrlEncodeString, List.mem_flatMap] at hc
  obtain ⟨b, hb, hcb⟩ := hc
  exact (formUrlEncodeByte_facts ⟨b, utf8Bytes_lt_256 s b hb⟩).1 hcb

theorem formUrlEncodeString_no_eq (s : String) : '=' ∉ formUrlEncodeString s := by
  intro hc
  simp [formUrlEncodeString, List.mem_flatMap] at hc
  obtain ⟨b, hb, hcb⟩ := hc
  exact (formUrlEncodeByte_facts ⟨b, utf8Bytes_lt_256 s b hb⟩).2.1 hcb

theorem formUrlEncodeString_valid (s : String) :
    ∀ c ∈ formUrlEncodeString s, isValidUriChar c = true := by
  intro c hc
  simp [formUrlEncodeString, List.mem_flatMap] at hc
  obtain ⟨b, hb, hcb⟩ := hc
  exact (formUrlEncodeByte_facts ⟨b, utf8Bytes_lt_256 s b hb⟩).2.2 c hcb

theorem encodeQueryPair_no_amp (kv : String × String) : '&' ∉ encodeQueryPair kv := by
  intro hc
  simp only [encodeQueryPair, List.mem_append, List.mem_cons] at hc
  rcases hc with h | h | h
  · exact formUrlEncodeString_no_amp kv.1 h
  · exact absurd h (by decide)
  · exact formUrlEncodeString_no_amp kv.2 h

theorem encodeQueryPair_ne_nil (kv : String × String) : encodeQueryPair kv ≠ [] := by
  simp [encodeQueryPair]

theorem encodeQueryPair_valid (kv : String × String) :
    ∀ c ∈ encodeQueryPair kv, isValidUriChar c = true := by
  intro c hc
  simp only [encodeQueryPair, List.mem_append, List.mem_cons] at hc
  rcases hc with h | h | h
  · exact formUrlEncodeString_valid kv.1 c h
  · subst h; decide
  · exact formUrlEncodeString_valid kv.2 c h

theorem splitEqFirst_append (a b : List Char) (ha : '=' ∉ a) :
    splitEqFirst (a ++ '=' :: b) = some (a, b) := by
  induction a with
  | nil => simp [splitEqFirst]
  | cons c cs ih =>
    have hc : c ≠ '=' := fun h => ha (by simp [h])
    have hcs : '=' ∉ cs := fun h => ha (by simp [h])
    simp [splitEqFirst, hc, ih hcs]

theorem splitSep_no_sep (sep : Char) (p : List Char) (hp : sep ∉ p) :
    splitSep sep p = [p] := by
  induction p with
  | nil => rfl
  | cons c cs ih =>
    have hc : c ≠ sep := fun h => hp (by simp [h])
    have hcs : sep ∉ cs := fun h => hp (by simp [h])
    simp [splitSep, hc, ih hcs]

theorem splitSep_append (sep : Char) (p rest : List Char) (hp : sep ∉ p) :
    splitSep sep (p ++ sep :: rest) = p :: splitSep sep rest := by
  induction p with
  | nil => simp [splitSep]
  | cons c cs ih =>
    have hc : c ≠ sep := fun h => hp (by simp [h])
    have hcs : sep ∉ cs := fun h => hp (by simp [h])
    simp [splitSep, hc, ih hcs]

theorem splitSep_joinSep (sep : Char) (parts : List (List Char)) (hne : parts ≠ [])
    (hfree : ∀ p ∈ parts, sep ∉ p) :
    splitSep sep (joinSep sep parts) = parts := by
  induction parts with
  | nil => simp at hne
  | cons p ps ih =>
    cases ps with
    | nil => simp [joinSep, splitSep_no_sep sep p (hfree p (by simp))]
    | cons q qs =>
      have h1 : sep ∉ p := hfree p (by simp)
      have h2 := ih (by simp) (fun x hx => hfree x (by simp [hx]))
      simp [joinSep, splitSep_append sep p _ h1, h2]

theorem joinSep_mem (sep : Char) (parts : List (List Char)) :
    ∀ c ∈ joinSep sep parts, c = sep ∨ ∃ p ∈ parts, c ∈ p := by
  induction parts with
  | nil => intro c hc; simp [joinSep] at hc
  | cons p ps ih =>
    intro c hc
    cases ps with
    | nil =>
      simp [joinSep] at hc
      exact Or.inr ⟨p, by simp, hc⟩
    | cons q qs =>
      simp only [joinSep, List.mem_append, List.mem_cons] at hc
      rcases hc with h | h | h
      · exact Or.inr ⟨p, by simp, h⟩
      · exact Or.inl h
      · rcases ih c h with h2 | ⟨r, hr, hcr⟩
        · exact Or.inl h2
        · exact Or.inr ⟨r, by simp [hr], hcr⟩

theorem joinSep_cons_ne_nil (sep : Char) (p : List Char) (ps : List (List Char))
    (hp : p ≠ []) : joinSep sep (p :: ps) ≠ [] := by
  cases ps <;> simp [joinSep, hp]

theorem decodeParts_encode (ps : List (String × String)) :
    (ps.map encodeQueryPair).mapM (fun part =>
      match splitEqFirst part with
      | none => none
      | some (a, b) =>
        match percentDecodeBytes a, percentDecodeBytes b with
        | some ka, some vb => some (ka, vb)
        | _, _ => none) =
      some (ps.map (fun kv => (utf8Bytes kv.1, utf8Bytes kv.2))) := by
  induction ps with
  | nil => rfl
  | cons kv ps ih =>
    have hpart : splitEqFirst (encodeQueryPair kv) =
        some (formUrlEncodeString kv.1, formUrlEncodeString kv.2) :=
      splitEqFirst_append _ _ (formUrlEncodeString_no_eq kv.1)
    simp only [List.map_cons, List.mapM_cons, hpart, percentDecode_encodeString, ih]
    rfl

theorem decodeQuery_encodePairs (pairs : List (String × String)) :
    decodeQueryChars (joinSep '&' (pairs.map encodeQueryPair)) =
      some (pairs.map (fun kv => (utf8Bytes kv.1, utf8Bytes kv.2))) := by
  cases pairs with
  | nil => simp [joinSep, decodeQueryChars]
  | cons kv0 rest =>
    have hfree : ∀ part ∈ (kv0 :: rest).map encodeQueryPair, '&' ∉ part := by
      intro part hpart
      simp only [List.mem_map] at hpart
      obtain ⟨kv, _, rfl⟩ := hpart
      exact encodeQueryPair_no_amp kv
    have hsplit := splitSep_joinSep '&' ((kv0 :: rest).map encodeQueryPair)
      (by simp) hfree
    have hjoin_ne : joinSep '&' ((kv0 :: rest).map encodeQueryPair) ≠ [] := by
      simp only [List.map_cons]
      exact joinSep_cons_ne_nil '&' _ _ (encodeQueryPair_ne_nil kv0)
    rw [decodeQueryChars, if_neg hjoin_ne, hsplit]
    exact decodeParts_encode (kv0 :: rest)

/-- C2: with a valid base URL string, the built URL is exactly the base, one
question mark, and the ampersand-joined form-urlencoded present pairs: pairs
whose value is absent are dropped entirely, and decoding the query string back
yields exactly the UTF-8 byte pairs of the present pairs, in input order,
without sorting or deduplication, so a repeated key repeats in the query. -/
theorem C2_query_lists_present_pairs (url_str : String)
    (params : List (String × Option String)) (hu : isValidUrlString url_str = true) :
    create_url_with_params url_str params =
      some (url_str ++
        String.mk ('?' :: joinSep '&' ((presentParams params).map encodeQueryPair))) ∧
    decodeQueryChars (joinSep '&' ((presentParams params).map encodeQueryPair)) =
      some ((presentParams params).map (fun kv => (utf8Bytes kv.1, utf8Bytes kv.2))) := by
  constructor
  · have hext : ∀ c ∈ '?' :: joinSep '&' ((presentParams params).map encodeQueryPair),
        isValidUriChar c = true := by
      intro c hc
      rcases List.mem_cons.mp hc with h | h
      · subst h; decide
      · rcases joinSep_mem '&' _ c h with h2 | ⟨p, hp, hcp⟩
        · subst h2; decide
        · simp only [List.mem_map] at hp
          obtain ⟨kv, _, rfl⟩ := hp
          exact encodeQueryPair_valid kv c hcp
    have hvalid := isValidUrlString_append url_str _ hu hext
    simp [create_url_with_params, parseUriModel, hu, hvalid]
  · exact decodeQuery_encodePairs (presentParams params)

/-- C2 witness: a concrete parameter sequence with one absent value and one
repeated key builds a query listing exactly the present pairs in order. -/
theorem C2_query_lists_present_pairs_witness :
    create_url_with_params "https://slack.com/api/api.test"
        [("channel", some "C123"), ("thread_ts", none), ("channel", some "a b")] =
      some ("https://slack.com/api/api.test" ++
        String.mk ('?' :: joinSep '&'
          ((presentParams [("channel", some "C123"), ("thread_ts", none),
            ("channel", some "a b")]).map encodeQueryPair))) ∧
    decodeQueryChars (joinSep '&'
        ((presentParams [("channel", some "C123"), ("thread_ts", none),
          ("channel", some "a b")]).map encodeQueryPair)) =
      some ((presentParams [("channel", some "C123"), ("thread_ts", none),
        ("channel", some "a b")]).map (fun kv => (utf8Bytes kv.1, utf8Bytes kv.2))) :=
  C2_query_lists_present_pairs "https://slack.com/api/api.test"
    [("channel", some "C123"), ("thread_ts", none), ("channel", some "a b")] (by decide)

end SlackMorphism
